import Mathlib

/-!
Shallow embedding of the elastic worker pool in pool.go (package task).

Modelling conventions:
- Go machine integers (int32, int64) are modelled as Lean Int; every value
  manipulated here stays far from the overflow boundaries, so no wrap-around
  modelling is needed.
- The pool's pseudo-random sampling source (p.randSource and the package-level
  rand) is modelled by passing the sampled indices, or a stream of sampled
  values, explicitly as parameters to the functions that consume them.
- Workers are heap objects reached through pointers in Go; here a worker is a
  value stored in one of the two registries and a pointer is a WorkerRef
  locating it, with lookup and update functions.
- context.Context / CancelFunc are modelled by the boolean field cancelled;
  sync primitives (the temporary-registry mutex, the WaitGroup) serialize
  access and do not change sequential semantics, so they have no counterpart.
- Functions whose Go source can fault or diverge return a GoResult, with oob
  for an index-out-of-range fault and fuelOut for exhausted loop fuel.
- Code of the repository that is not in pool.go (the worker implementation,
  conf defaults, the identity generator) is modelled from the spec; each such
  definition carries a doc comment saying so.
-/

/-- WorkType mirrors Go: type WorkType int32. -/
abbrev WorkType := Int

def ETERNAL : WorkType := 1

def TEMPORARY : WorkType := 2

/-- TaskConf is declared outside pool.go; its fields are those pool.go reads:
WorkerNum (int32 worker count), WorkerContent (int64 per-worker capacity),
ExpTime (temporary-worker expiry, seconds). -/
structure TaskConf where
  WorkerNum : Int
  WorkerContent : Int
  ExpTime : Int
deriving DecidableEq, Repr

/-- TaskContext is the opaque job unit; the core never inspects it. -/
structure TaskContext where
  u : Unit := ()
deriving DecidableEq, Repr

/-- Worker state as pool.go observes it: ID (int64), the capacity passed at
creation (conf.WorkerContent), the atomic jobNum counter (int64), the atomic
backpressure flag Blocking (uint32 used as a boolean), and the kind. -/
structure Worker where
  ID : Int
  capacity : Int
  jobNum : Int
  Blocking : Bool
  kind : WorkType
deriving DecidableEq, Repr

instance : Inhabited Worker := ⟨⟨0, 0, 0, false, ETERNAL⟩⟩

/-- Modelled from the spec: newWorker is not in pool.go. It constructs a
worker with the given identity, capacity and kind, zero load and a clear
backpressure flag. -/
def newWorker (id : Int) (cap : Int) (k : WorkType) : Worker :=
  ⟨id, cap, 0, false, k⟩

/-- Modelled from the spec: IsBlocking returns the current backpressure
flag, a hint that may be one job stale. -/
def Worker.IsBlocking (w : Worker) : Bool := w.Blocking

/-- Modelled from the spec: sendJob is not in pool.go. Non-blocking enqueue:
below capacity it increments jobNum and returns true; at capacity it sets the
backpressure flag and returns false, never blocking the caller. -/
def Worker.sendJob (w : Worker) (_job : TaskContext) : Worker × Bool :=
  if w.jobNum < w.capacity then ({ w with jobNum := w.jobNum + 1 }, true)
  else ({ w with Blocking := true }, false)

/-- Modelled from the spec: the worker run loop is not in pool.go. After
executing a queued job it decrements jobNum and clears the backpressure flag
once load has dropped below capacity. -/
def Worker.completeJob (w : Worker) : Worker :=
  { w with jobNum := w.jobNum - 1,
           Blocking := if w.jobNum - 1 < w.capacity then false else w.Blocking }

/-- Pool mirrors the Pool struct of pool.go: the eternal registry, the
configuration, the isClose flag (int32: 1 means closed, 2 means open), the
master-context cancellation state, and the temporary registry (an Option to
keep Go's distinction between a nil and an empty slice, which
getWorkerFromTemp inspects). -/
structure Pool where
  eternalWorker : List Worker
  conf : TaskConf
  isClose : Int
  cancelled : Bool
  temporaryWorker : Option (List Worker)
deriving DecidableEq, Repr

/-- A pointer to a worker owned by the pool: an index into one of the two
registries. -/
inductive WorkerRef where
  | eternal (i : Nat)
  | temp (i : Nat)
deriving DecidableEq, Repr

def Pool.tempList (p : Pool) : List Worker := p.temporaryWorker.getD []

def Pool.allWorkers (p : Pool) : List Worker := p.eternalWorker ++ p.tempList

def Pool.lookup (p : Pool) : WorkerRef → Worker
  | .eternal i => p.eternalWorker.getD i default
  | .temp i => p.tempList.getD i default

def Pool.updateW (p : Pool) : WorkerRef → Worker → Pool
  | .eternal i, w => { p with eternalWorker := p.eternalWorker.set i w }
  | .temp i, w => { p with temporaryWorker := some (p.tempList.set i w) }

/-- isClosed (pool.go line 272): the pool is closed when isClose equals 1. -/
def Pool.isClosed (p : Pool) : Bool := p.isClose == 1

/-- The eternal workers appended by startPool (pool.go lines 75-82): ids 1..n
created by newWorker with capacity conf.WorkerContent and kind ETERNAL. -/
def startPoolWorkers (conf : TaskConf) : List Worker :=
  (List.range conf.WorkerNum.toNat).map
    (fun i => newWorker (Int.ofNat (i + 1)) conf.WorkerContent ETERNAL)

/-- startPool (pool.go lines 68-85): spawns the eternal workers and then
increments isClose (1 becomes 2: the pool opens). -/
def startPool (p : Pool) : Pool :=
  { p with eternalWorker := p.eternalWorker ++ startPoolWorkers p.conf,
           isClose := p.isClose + 1 }

/-- NewPool (pool.go lines 40-66) on a non-nil conf (a nil conf is replaced
by defaultConf, which lives outside pool.go). Below two workers it panics
(modelled as none); otherwise it builds the pool with isClose = 1 and runs
startPool. -/
def NewPool (conf : TaskConf) : Option Pool :=
  if conf.WorkerNum < 2 then none
  else some (startPool
    { eternalWorker := [], conf := conf, isClose := 1,
      cancelled := false, temporaryWorker := none })

/-- getWorkFormEnternal (pool.go lines 244-258), with the two sampled indices
i and j passed explicitly. The CompareAndSwap against conf.WorkerContent with
an unchanged new value is an equality test of jobNum with the capacity; when
both sampled workers are at capacity the selector yields no worker, otherwise
the one with the smaller jobNum (ties to the second). -/
def getWorkFormEnternal (p : Pool) (i j : Nat) : Option WorkerRef :=
  let w1 := p.eternalWorker.getD i default
  let w2 := p.eternalWorker.getD j default
  if w1.jobNum = p.conf.WorkerContent ∧ w2.jobNum = p.conf.WorkerContent then none
  else if w1.jobNum < w2.jobNum then some (.eternal i) else some (.eternal j)

/-- getWorkerFromTemp (pool.go lines 153-187), sampled indices explicit. A
nil registry is initialized to an empty one (a pool mutation) and no worker
is returned; an empty registry returns no worker; a singleton registry
returns its worker unless it is at capacity or its backpressure flag is set;
otherwise the two-sample comparison runs as in getWorkFormEnternal. -/
def getWorkerFromTemp (p : Pool) (i j : Nat) : Pool × Option WorkerRef :=
  match p.temporaryWorker with
  | none => ({ p with temporaryWorker := some [] }, none)
  | some ws =>
    if ws.length = 0 then (p, none)
    else if ws.length = 1 then
      let w := ws.getD 0 default
      if w.jobNum = p.conf.WorkerContent ∨ w.IsBlocking = true then (p, none)
      else (p, some (.temp 0))
    else
      let w1 := ws.getD i default
      let w2 := ws.getD j default
      if w1.jobNum = p.conf.WorkerContent ∧ w2.jobNum = p.conf.WorkerContent then (p, none)
      else if w1.jobNum < w2.jobNum then (p, some (.temp i)) else (p, some (.temp j))

/-- The loop of getWorkStep (pool.go lines 111-133). Each iteration waits one
tick, increments the counter and overwrites w with a fresh call of f; a nil
or blocking result only skips to the next iteration, so nothing
short-circuits. The state of the loop is (calls made so far, pool, w); the
remaining-iteration count drives the recursion. The selector f may mutate
the pool (getWorkerFromTemp initializes a nil registry), so the pool is
threaded through. -/
def getWorkStepAux (f : Nat → Pool → Pool × Option WorkerRef) :
    Nat → Pool → Option WorkerRef → Nat → Nat × Pool × Option WorkerRef
  | k, p, w, 0 => (k, p, w)
  | k, p, _w, rem + 1 =>
    let r := f k p
    getWorkStepAux f (k + 1) r.1 r.2 rem

/-- getWorkStep (pool.go lines 111-133): run the selector num times, one
duration apart (timing abstracted), and return the last attempt's result. -/
def getWorkStep (num : Nat) (_duration : Int)
    (f : Nat → Pool → Pool × Option WorkerRef) (p : Pool) :
    Pool × Option WorkerRef :=
  let r := getWorkStepAux f 0 p none num
  (r.2.1, r.2.2)

/-- newTempWorker (pool.go lines 189-206): create a temporary worker with an
externally generated identity (GetUUID, modelled as the parameter newId) and
capacity conf.WorkerContent, append it to the temporary registry under the
lock, and return it. -/
def newTempWorker (p : Pool) (newId : Int) : Pool × WorkerRef :=
  let w := newWorker newId p.conf.WorkerContent TEMPORARY
  let ws := p.tempList ++ [w]
  ({ p with temporaryWorker := some ws }, .temp (ws.length - 1))

/-- The escalation guard of DoJob: retry when no worker was selected or the
selected worker's backpressure flag is set (w == nil or w.IsBlocking()). -/
def needRetry (p : Pool) (r : Option WorkerRef) : Bool :=
  match r with
  | none => true
  | some ref => (p.lookup ref).IsBlocking

/-- Admission tail of DoJob (pool.go lines 107-108): look up the chosen
worker, run sendJob on it, write the worker back and return sendJob's
result. -/
def doSend (p : Pool) (ref : WorkerRef) (job : TaskContext) : Pool × Bool :=
  let w := p.lookup ref
  let r := w.sendJob job
  (p.updateW ref r.1, r.2)

/-- Selection phase of DoJob (pool.go lines 93-101): the eternal fast path,
then the 3-attempt eternal retry, then the 3-attempt temporary retry. The
stream pk supplies the index pair of each selector invocation (pk 0 for the
fast path, pk 1..3 for the eternal retries, pk 4..6 for the temporary
retries). -/
def doJobSelect (p : Pool) (pk : Nat → Nat × Nat) : Pool × Option WorkerRef :=
  let w0 := getWorkFormEnternal p (pk 0).1 (pk 0).2
  let s1 :=
    if needRetry p w0 then
      getWorkStep 3 1 (fun k q => (q, getWorkFormEnternal q (pk (1 + k)).1 (pk (1 + k)).2)) p
    else (p, w0)
  if needRetry s1.1 s1.2 then
    getWorkStep 3 1 (fun k q => getWorkerFromTemp q (pk (4 + k)).1 (pk (4 + k)).2) s1.1
  else s1

/-- Spawn-or-admit tail of DoJob (pool.go lines 103-108). If selection still
yields no usable worker a temporary worker is spawned and used
unconditionally. The none branch after a successful needRetry test cannot
arise (needRetry is true on none), so its value is irrelevant. -/
def doAdmit (s : Pool × Option WorkerRef) (job : TaskContext) (newId : Int) : Pool × Bool :=
  if needRetry s.1 s.2 then
    let t := newTempWorker s.1 newId
    doSend t.1 t.2 job
  else
    match s.2 with
    | some ref => doSend s.1 ref job
    | none => (s.1, false)

/-- DoJob (pool.go lines 87-109): reject immediately when closed, otherwise
select a worker through the escalation ladder and admit the job on it. -/
def DoJob (p : Pool) (job : TaskContext) (pk : Nat → Nat × Nat) (newId : Int) : Pool × Bool :=
  if p.isClosed then (p, false)
  else doAdmit (doJobSelect p pk) job newId

/-- Close (pool.go lines 260-270): a no-op on a closed pool; otherwise
decrement isClose (2 becomes 1) and cancel the master context. -/
def Close (p : Pool) : Pool :=
  if p.isClosed then p
  else { p with isClose := p.isClose - 1, cancelled := true }

/-- Outcome of running a piece of Go code that can fault or exhaust its
modelling fuel: a normal result, an index-out-of-range fault, or fuel
exhaustion (which no run reachable from the actual entry points hits). -/
inductive GoResult (α : Type) where
  | ok (a : α)
  | oob
  | fuelOut
deriving DecidableEq, Repr

/-- The search loop of removeFromParent (pool.go lines 229-240). Go's / on
ints truncates toward zero, hence Int.div for mid. Indexing with a negative
or too-large mid is the oob fault. The fuel argument only bounds the
recursion; every run from the actual entry (l = 0, r = length - 1) either
faults, returns, or exits the loop within two iterations, so any fuel of at
least two is faithful. -/
def removeLoop (id : Int) (ws : List Worker) : Int → Int → Nat → GoResult (List Worker)
  | l, r, 0 => if l < r then .fuelOut else .ok ws
  | l, r, fuel + 1 =>
    if l < r then
      let mid := l + Int.tdiv (l - r) 2
      if mid < 0 ∨ (ws.length : Int) ≤ mid then .oob
      else
        let w := ws.getD mid.toNat default
        if w.ID = id then .ok (ws.take mid.toNat ++ ws.drop (mid.toNat + 1))
        else if w.ID > id then removeLoop id ws l (mid - 1) fuel
        else removeLoop id ws (mid + 1) r fuel
    else .ok ws

/-- removeFromParent (pool.go lines 208-242): a nil or empty registry is left
alone; a singleton registry is truncated when its worker matches (the code
then still enters the loop with l = r = 0, which does nothing) and left alone
otherwise; longer registries run the search loop over l = 0, r = lenTemp - 1. -/
def removeFromParent (p : Pool) (id : Int) : GoResult Pool :=
  match p.temporaryWorker with
  | none => .ok p
  | some ws =>
    if ws.length = 0 then .ok p
    else
      let lenTemp := ws.length
      if lenTemp = 1 then
        if (ws.getD 0 default).ID ≠ id then .ok p
        else
          match removeLoop id [] 0 ((lenTemp : Int) - 1) (lenTemp + 1) with
          | .ok ws2 => .ok { p with temporaryWorker := some ws2 }
          | .oob => .oob
          | .fuelOut => .fuelOut
      else
        match removeLoop id ws 0 ((lenTemp : Int) - 1) (lenTemp + 1) with
        | .ok ws2 => .ok { p with temporaryWorker := some ws2 }
        | .oob => .oob
        | .fuelOut => .fuelOut

/-- The resample loop of getTwoNums (pool.go lines 140-142): while the second
draw collides with the first, draw again (from the package-level rand,
modelled as the stream g giving the k-th resample). cur is the current second
draw, k the next resample position, and the fuel bounds the loop; the guard
is tested before fuel is consumed, so a non-colliding value is returned even
with zero fuel. -/
def sampleLoop (g : Nat → Nat) (r1 : Nat) : Nat → Nat → Nat → Option Nat
  | cur, _k, 0 => if cur = r1 then none else some cur
  | cur, k, fuel + 1 => if cur = r1 then sampleLoop g r1 (g k) (k + 1) fuel else some cur

/-- getTwoNums (pool.go lines 135-145): the two draws r1 and r2 from the
pool's seeded source (each in [0, num)), then the collision resample loop.
Returns none only when the resample stream never leaves r1 within the
fuel budget (probability zero for a fair source over num at least 2). -/
def getTwoNums (_num : Nat) (r1 r2 : Nat) (g : Nat → Nat) (fuel : Nat) :
    Option (Nat × Nat) :=
  (sampleLoop g r1 r2 0 fuel).map (fun b => (r1, b))

/-- getTwoWorker (pool.go lines 147-151): index the registry at the two
sampled positions. -/
def getTwoWorker (num : Nat) (ws : List Worker) (r1 r2 : Nat) (g : Nat → Nat)
    (fuel : Nat) : Option (Worker × Worker) :=
  (getTwoNums num r1 r2 g fuel).map
    (fun ab => (ws.getD ab.1 default, ws.getD ab.2 default))

/-- Sequential transitions of a pool: a DoJob call, a worker finishing a job
(enabled only while that worker holds a job), a Close call, and a temporary
worker unregistering itself (only its non-faulting runs produce a state). -/
inductive Step : Pool → Pool → Prop where
  | doJob (p : Pool) (job : TaskContext) (pk : Nat → Nat × Nat) (newId : Int) :
      Step p (DoJob p job pk newId).1
  | complete (p : Pool) (ref : WorkerRef) (h : 0 < (p.lookup ref).jobNum) :
      Step p (p.updateW ref (p.lookup ref).completeJob)
  | close (p : Pool) : Step p (Close p)
  | removeTemp (p : Pool) (id : Int) (p' : Pool)
      (h : removeFromParent p id = .ok p') : Step p p'

/-- Per-worker load bounds: the jobNum counter stays between zero and the
worker's capacity. -/
def WorkerBounds (w : Worker) : Prop := 0 ≤ w.jobNum ∧ w.jobNum ≤ w.capacity

/-- Pool invariant: the configured capacity is non-negative and every worker
of either registry satisfies the load bounds. -/
def Pool.Inv (p : Pool) : Prop :=
  0 ≤ p.conf.WorkerContent ∧ ∀ w ∈ p.allWorkers, WorkerBounds w

/-! Concrete fixtures used by counterexamples and witnesses. -/

def confW : TaskConf := ⟨2, 1, 5⟩

def wA : Worker := ⟨1, 1, 0, false, TEMPORARY⟩

def wB : Worker := ⟨2, 1, 0, false, TEMPORARY⟩

def wC : Worker := ⟨3, 1, 0, false, TEMPORARY⟩

def wBlock : Worker := ⟨7, 1, 0, true, TEMPORARY⟩

def poolClosed : Pool := ⟨[], confW, 1, true, none⟩

def poolC4 : Pool := ⟨[], confW, 2, false, some [wA, wB]⟩

def poolC10 : Pool := ⟨[], confW, 2, false, some [wA, wB, wC]⟩

def poolC7 : Pool := ⟨[], confW, 2, false, some [wBlock]⟩

def poolC2 : Pool :=
  ⟨[⟨1, 1, 0, false, ETERNAL⟩, ⟨2, 1, 1, false, ETERNAL⟩], confW, 2, false, some [wA, wB]⟩

def poolInit : Pool := ⟨[], confW, 1, false, none⟩

/-- C1: if the pool is closed, DoJob returns false immediately and the pool
state — every worker included — is unchanged: no selection, no spawn, no
mutation. -/
theorem DoJob_closed_rejects (p : Pool) (job : TaskContext) (pk : Nat → Nat × Nat)
    (newId : Int) (h : p.isClosed = true) :
    DoJob p job pk newId = (p, false) := by
  simp [DoJob, h]

/-- C1 witness: DoJob on a concrete closed pool. -/
theorem DoJob_closed_rejects_witness :
    DoJob poolClosed ⟨()⟩ (fun _ => (0, 1)) 99 = (poolClosed, false) :=
  DoJob_closed_rejects poolClosed ⟨()⟩ (fun _ => (0, 1)) 99 (by decide)

/-- C3: a retry phase with num = 3 makes exactly 3 selector calls (the loop
counter ends at 3) and its value is exactly the third call's result with the
pool threaded through — for every selector f, so an earlier non-nil,
non-blocking result never short-circuits, and the final result is returned
even when it is nil or blocking. -/
theorem getWorkStep_three_attempts_last_result
    (f : Nat → Pool → Pool × Option WorkerRef) (p : Pool) :
    (getWorkStepAux f 0 p none 3).1 = 3 ∧
    getWorkStep 3 1 f p = f 2 (f 1 (f 0 p).1).1 := by
  constructor
  · simp [getWorkStepAux]
  · simp [getWorkStep, getWorkStepAux]

/-- C4: removeFromParent misses a worker inserted after the probe point. In
the two-element registry with identities 1, 2 (in insertion order), removing
identity 2 leaves the registry unchanged: the broken binary search only
probes index 0 and then exits. -/
theorem removeFromParent_misses_unsorted :
    wB ∈ poolC4.tempList ∧ wB.ID = 2 ∧
    removeFromParent poolC4 2 = .ok poolC4 := by decide

/-- C10: removeFromParent faults on any registry of length 3: the first probe
computes mid = 0 + (0 - 2) / 2 = -1 (Go division truncates toward zero) and
indexes the slice at -1, an out-of-range access — even though the identity
sought is present. -/
theorem removeFromParent_oob :
    wB ∈ poolC10.tempList ∧ wB.ID = 2 ∧
    removeFromParent poolC10 2 = .oob := by decide

/-- C5: NewPool with a configured worker count below 2 panics (none) without
constructing a pool; with count at least 2 it returns a pool whose eternal
registry holds exactly that many workers and which is open on return. -/
theorem NewPool_min_and_size :
    (∀ conf : TaskConf, conf.WorkerNum < 2 → NewPool conf = none) ∧
    (∀ conf : TaskConf, 2 ≤ conf.WorkerNum →
      ∃ p, NewPool conf = some p ∧
        (p.eternalWorker.length : Int) = conf.WorkerNum ∧ p.isClosed = false) := by
  constructor
  · intro conf h
    simp [NewPool, h]
  · intro conf h
    have hlt : ¬ conf.WorkerNum < 2 := not_lt.mpr h
    refine ⟨startPool
      { eternalWorker := [], conf := conf, isClose := 1,
        cancelled := false, temporaryWorker := none }, ?_, ?_, rfl⟩
    · simp [NewPool, hlt]
    · simp [startPool, startPoolWorkers]
      omega

/-- C5 witness: a one-worker configuration is rejected; a two-worker
configuration yields an open pool with two eternal workers. -/
theorem NewPool_min_and_size_witness :
    NewPool ⟨1, 1, 5⟩ = none ∧
    ∃ p, NewPool confW = some p ∧
      (p.eternalWorker.length : Int) = confW.WorkerNum ∧ p.isClosed = false :=
  ⟨NewPool_min_and_size.1 ⟨1, 1, 5⟩ (by decide),
   NewPool_min_and_size.2 confW (by decide)⟩

/-- C7 counterexample: a singleton temporary registry whose worker is
admissible in the claim's sense (jobNum strictly below capacity) but carries
a set backpressure flag; the claim demands the worker be returned, yet the
code returns none because the size-1 branch also tests IsBlocking. -/
theorem getWorkerFromTemp_single_blocking_counterexample :
    poolC7.temporaryWorker = some [wBlock] ∧
    wBlock.jobNum < poolC7.conf.WorkerContent ∧
    (getWorkerFromTemp poolC7 0 1).2 = none := by decide

/-- C7 amended: for a temporary registry of size exactly 1 (with jobNum not
above capacity), the selector ignores the sampled indices entirely — the
two-sample path is never taken — leaves the pool unchanged, returns the
single worker exactly when its jobNum is strictly below capacity and its
backpressure flag is clear, and returns none exactly when the worker sits at
capacity or its flag is set. -/
theorem getWorkerFromTemp_single (p : Pool) (w : Worker) (i j i' j' : Nat)
    (hw : p.temporaryWorker = some [w])
    (hle : w.jobNum ≤ p.conf.WorkerContent) :
    getWorkerFromTemp p i j = getWorkerFromTemp p i' j' ∧
    (getWorkerFromTemp p i j).1 = p ∧
    ((getWorkerFromTemp p i j).2 = some (.temp 0) ↔
      w.jobNum < p.conf.WorkerContent ∧ w.Blocking = false) ∧
    ((getWorkerFromTemp p i j).2 = none ↔
      w.jobNum = p.conf.WorkerContent ∨ w.Blocking = true) := by
  have hgen : ∀ a b : Nat, getWorkerFromTemp p a b =
      (if w.jobNum = p.conf.WorkerContent ∨ w.Blocking = true then (p, none)
       else (p, some (.temp 0))) := by
    intro a b
    simp [getWorkerFromTemp, hw, Worker.IsBlocking]
  rw [hgen i j, hgen i' j']
  by_cases hj : w.jobNum = p.conf.WorkerContent
  · cases hb : w.Blocking <;> simp [hj, hb]
  · cases hb : w.Blocking
    · simp [hj, hb]
      omega
    · simp [hj, hb]

/-- C7 amended witness: the amended characterization evaluated on the
concrete singleton registry holding a blocked worker. -/
theorem getWorkerFromTemp_single_witness :
    getWorkerFromTemp poolC7 0 1 = getWorkerFromTemp poolC7 2 3 ∧
    (getWorkerFromTemp poolC7 0 1).1 = poolC7 ∧
    ((getWorkerFromTemp poolC7 0 1).2 = some (.temp 0) ↔
      wBlock.jobNum < poolC7.conf.WorkerContent ∧ wBlock.Blocking = false) ∧
    ((getWorkerFromTemp poolC7 0 1).2 = none ↔
      wBlock.jobNum = poolC7.conf.WorkerContent ∨ wBlock.Blocking = true) :=
  getWorkerFromTemp_single poolC7 wBlock 0 1 2 3 rfl (by decide)

/-- C2: one selector invocation over a registry of size at least 2 (eternal:
getWorkFormEnternal; temporary: the size-2-or-more branch of
getWorkerFromTemp), at two distinct in-range sampled indices and for
registries satisfying the jobNum-at-most-capacity invariant: when both
sampled workers are at/above capacity no worker is returned, and otherwise
one of the two sampled workers with the smaller jobNum is returned (ties
broken arbitrarily). -/
theorem selector_p2c :
    (∀ (p : Pool) (i j : Nat),
      i < p.eternalWorker.length → j < p.eternalWorker.length → i ≠ j →
      (∀ w ∈ p.eternalWorker, w.jobNum ≤ p.conf.WorkerContent) →
      ((p.conf.WorkerContent ≤ (p.eternalWorker.getD i default).jobNum ∧
        p.conf.WorkerContent ≤ (p.eternalWorker.getD j default).jobNum) →
        getWorkFormEnternal p i j = none) ∧
      (((p.eternalWorker.getD i default).jobNum < p.conf.WorkerContent ∨
        (p.eternalWorker.getD j default).jobNum < p.conf.WorkerContent) →
        ∃ r, getWorkFormEnternal p i j = some r ∧
          (r = WorkerRef.eternal i ∨ r = WorkerRef.eternal j) ∧
          (p.lookup r).jobNum ≤ (p.eternalWorker.getD i default).jobNum ∧
          (p.lookup r).jobNum ≤ (p.eternalWorker.getD j default).jobNum)) ∧
    (∀ (p : Pool) (ws : List Worker) (i j : Nat),
      p.temporaryWorker = some ws → 2 ≤ ws.length →
      i < ws.length → j < ws.length → i ≠ j →
      (∀ w ∈ ws, w.jobNum ≤ p.conf.WorkerContent) →
      ((p.conf.WorkerContent ≤ (ws.getD i default).jobNum ∧
        p.conf.WorkerContent ≤ (ws.getD j default).jobNum) →
        (getWorkerFromTemp p i j).2 = none) ∧
      (((ws.getD i default).jobNum < p.conf.WorkerContent ∨
        (ws.getD j default).jobNum < p.conf.WorkerContent) →
        ∃ r, (getWorkerFromTemp p i j).2 = some r ∧
          (r = WorkerRef.temp i ∨ r = WorkerRef.temp j) ∧
          (p.lookup r).jobNum ≤ (ws.getD i default).jobNum ∧
          (p.lookup r).jobNum ≤ (ws.getD j default).jobNum)) := by
  constructor
  · intro p i j hi hj hij hinv
    have h1 : (p.eternalWorker.getD i default).jobNum ≤ p.conf.WorkerContent := by
      apply hinv
      rw [List.getD_eq_getElem _ _ hi]
      exact List.getElem_mem hi
    have h2 : (p.eternalWorker.getD j default).jobNum ≤ p.conf.WorkerContent := by
      apply hinv
      rw [List.getD_eq_getElem _ _ hj]
      exact List.getElem_mem hj
    unfold getWorkFormEnternal
    constructor
    · intro ⟨ha, hb⟩
      rw [if_pos ⟨le_antisymm h1 ha, le_antisymm h2 hb⟩]
    · intro hlt
      have hcond : ¬ ((p.eternalWorker.getD i default).jobNum = p.conf.WorkerContent ∧
          (p.eternalWorker.getD j default).jobNum = p.conf.WorkerContent) := by omega
      rw [if_neg hcond]
      by_cases hc : (p.eternalWorker.getD i default).jobNum <
          (p.eternalWorker.getD j default).jobNum
      · rw [if_pos hc]
        exact ⟨.eternal i, rfl, Or.inl rfl, le_refl _, le_of_lt hc⟩
      · rw [if_neg hc]
        exact ⟨.eternal j, rfl, Or.inr rfl, not_lt.mp hc, le_refl _⟩
  · intro p ws i j hw hlen hi hj hij hinv
    have h0 : ¬ ws.length = 0 := by omega
    have h1' : ¬ ws.length = 1 := by omega
    have h1 : (ws.getD i default).jobNum ≤ p.conf.WorkerContent := by
      apply hinv
      rw [List.getD_eq_getElem _ _ hi]
      exact List.getElem_mem hi
    have h2 : (ws.getD j default).jobNum ≤ p.conf.WorkerContent := by
      apply hinv
      rw [List.getD_eq_getElem _ _ hj]
      exact List.getElem_mem hj
    have hlkI : p.lookup (.temp i) = ws.getD i default := by
      simp [Pool.lookup, Pool.tempList, hw]
    have hlkJ : p.lookup (.temp j) = ws.getD j default := by
      simp [Pool.lookup, Pool.tempList, hw]
    unfold getWorkerFromTemp
    rw [hw]
    simp only [if_neg h0, if_neg h1']
    constructor
    · intro ⟨ha, hb⟩
      rw [if_pos ⟨le_antisymm h1 ha, le_antisymm h2 hb⟩]
    · intro hlt
      have hcond : ¬ ((ws.getD i default).jobNum = p.conf.WorkerContent ∧
          (ws.getD j default).jobNum = p.conf.WorkerContent) := by omega
      rw [if_neg hcond]
      by_cases hc : (ws.getD i default).jobNum < (ws.getD j default).jobNum
      · rw [if_pos hc]
        refine ⟨.temp i, rfl, Or.inl rfl, ?_, ?_⟩
        · rw [hlkI]
        · rw [hlkI]
          exact le_of_lt hc
      · rw [if_neg hc]
        refine ⟨.temp j, rfl, Or.inr rfl, ?_, ?_⟩
        · rw [hlkJ]
          exact not_lt.mp hc
        · rw [hlkJ]

/-- C2 witness: both selector instances on a concrete pool with two eternal
workers (loads 0 and 1, capacity 1) and two temporary workers. -/
theorem selector_p2c_witness :
    (∃ r, getWorkFormEnternal poolC2 0 1 = some r ∧
      (r = WorkerRef.eternal 0 ∨ r = WorkerRef.eternal 1) ∧
      (poolC2.lookup r).jobNum ≤ (poolC2.eternalWorker.getD 0 default).jobNum ∧
      (poolC2.lookup r).jobNum ≤ (poolC2.eternalWorker.getD 1 default).jobNum) ∧
    (∃ r, (getWorkerFromTemp poolC2 0 1).2 = some r ∧
      (r = WorkerRef.temp 0 ∨ r = WorkerRef.temp 1) ∧
      (poolC2.lookup r).jobNum ≤ ([wA, wB].getD 0 default).jobNum ∧
      (poolC2.lookup r).jobNum ≤ ([wA, wB].getD 1 default).jobNum) :=
  ⟨(selector_p2c.1 poolC2 0 1 (by decide) (by decide) (by decide) (by decide)).2
      (by decide),
   (selector_p2c.2 poolC2 [wA, wB] 0 1 rfl (by decide) (by decide) (by decide)
      (by decide) (by decide)).2 (by decide)⟩

/-- Termination of the resample loop of getTwoNums: if the current candidate
differs from the first draw, or the resample stream leaves the first draw
within the fuel budget, the loop returns a value distinct from the first draw
and in range. -/
theorem sampleLoop_finds (num : Nat) (g : Nat → Nat) (r1 : Nat) (hg : ∀ k, g k < num) :
    ∀ (fuel cur k : Nat), cur < num →
      (cur ≠ r1 ∨ ∃ d, d < fuel ∧ g (k + d) ≠ r1) →
      ∃ b, sampleLoop g r1 cur k fuel = some b ∧ b ≠ r1 ∧ b < num := by
  intro fuel
  induction fuel with
  | zero =>
    intro cur k hcur h
    have hc : cur ≠ r1 := by
      rcases h with h | ⟨d, hd, _⟩
      · exact h
      · omega
    exact ⟨cur, by simp [sampleLoop, hc], hc, hcur⟩
  | succ n ih =>
    intro cur k hcur h
    by_cases hc : cur = r1
    · have h2 : ∃ d, d < n + 1 ∧ g (k + d) ≠ r1 := by
        rcases h with h | h
        · exact absurd hc h
        · exact h
      obtain ⟨d, hd, hgd⟩ := h2
      have hnext : g k ≠ r1 ∨ ∃ d2, d2 < n ∧ g (k + 1 + d2) ≠ r1 := by
        rcases Nat.eq_zero_or_pos d with h0 | h0
        · subst h0
          left
          simpa using hgd
        · right
          refine ⟨d - 1, by omega, ?_⟩
          rw [show k + 1 + (d - 1) = k + d by omega]
          exact hgd
      rw [show sampleLoop g r1 cur k (n + 1) = sampleLoop g r1 (g k) (k + 1) n from by
        simp [sampleLoop, hc]]
      exact ih (g k) (k + 1) (hg k) hnext
    · exact ⟨cur, by simp [sampleLoop, hc], hc, hcur⟩

/-- C9: for a registry of size num at least 2, with in-range draws and a
resample stream that leaves the first draw within the fuel budget (an event
of probability one for the random source), getTwoNums terminates with two
distinct indices in [0, num); consequently getTwoWorker returns two distinct
workers of the (duplicate-free) registry. -/
theorem getTwoNums_getTwoWorker_ok (num : Nat) (ws : List Worker)
    (r1 r2 : Nat) (g : Nat → Nat) (fuel : Nat)
    (hnum : 2 ≤ num) (hws : ws.length = num) (hnd : ws.Nodup)
    (h1 : r1 < num) (h2 : r2 < num) (hg : ∀ k, g k < num)
    (hfair : ∃ d, d < fuel ∧ g d ≠ r1) :
    (∃ a b, getTwoNums num r1 r2 g fuel = some (a, b) ∧ a ≠ b ∧ a < num ∧ b < num) ∧
    (∃ u v, getTwoWorker num ws r1 r2 g fuel = some (u, v) ∧ u ≠ v ∧ u ∈ ws ∧ v ∈ ws) := by
  obtain ⟨b, hb, hbne, hblt⟩ :=
    sampleLoop_finds num g r1 hg fuel r2 0 h2 (Or.inr (by simpa using hfair))
  have hpair : getTwoNums num r1 r2 g fuel = some (r1, b) := by
    simp [getTwoNums, hb]
  constructor
  · exact ⟨r1, b, hpair, fun he => hbne he.symm, h1, hblt⟩
  · have hr1 : r1 < ws.length := by omega
    have hblt' : b < ws.length := by omega
    refine ⟨ws.getD r1 default, ws.getD b default, ?_, ?_, ?_, ?_⟩
    · simp [getTwoWorker, hpair]
    · rw [List.getD_eq_getElem _ _ hr1, List.getD_eq_getElem _ _ hblt']
      intro he
      exact hbne ((hnd.getElem_inj_iff.mp he).symm)
    · rw [List.getD_eq_getElem _ _ hr1]
      exact List.getElem_mem hr1
    · rw [List.getD_eq_getElem _ _ hblt']
      exact List.getElem_mem hblt'

/-- C9 witness: a registry of two distinct workers, colliding draws 0 and 0,
and a resample stream that immediately yields 1. -/
theorem getTwoNums_getTwoWorker_ok_witness :
    (∃ a b, getTwoNums 2 0 0 (fun _ => 1) 1 = some (a, b) ∧ a ≠ b ∧ a < 2 ∧ b < 2) ∧
    (∃ u v, getTwoWorker 2 [wA, wB] 0 0 (fun _ => 1) 1 = some (u, v) ∧ u ≠ v ∧
      u ∈ [wA, wB] ∧ v ∈ [wA, wB]) :=
  getTwoNums_getTwoWorker_ok 2 [wA, wB] 0 0 (fun _ => 1) 1 (by decide) (by decide)
    (by decide) (by decide) (by decide) (fun _ => Nat.one_lt_two) ⟨0, by decide, by decide⟩

theorem WorkerBounds_default : WorkerBounds (default : Worker) := by
  constructor <;> decide

theorem lookup_bounds (p : Pool) (hp : p.Inv) (ref : WorkerRef) :
    WorkerBounds (p.lookup ref) := by
  cases ref with
  | eternal i =>
    by_cases hi : i < p.eternalWorker.length
    · apply hp.2
      show p.eternalWorker.getD i default ∈ _
      rw [List.getD_eq_getElem _ _ hi]
      exact List.mem_append.mpr (Or.inl (List.getElem_mem hi))
    · show WorkerBounds (p.eternalWorker.getD i default)
      rw [List.getD_eq_default _ _ (le_of_not_lt hi)]
      exact WorkerBounds_default
  | temp i =>
    by_cases hi : i < p.tempList.length
    · apply hp.2
      show p.tempList.getD i default ∈ _
      rw [List.getD_eq_getElem _ _ hi]
      exact List.mem_append.mpr (Or.inr (List.getElem_mem hi))
    · show WorkerBounds (p.tempList.getD i default)
      rw [List.getD_eq_default _ _ (le_of_not_lt hi)]
      exact WorkerBounds_default

theorem sendJob_bounds (w : Worker) (job : TaskContext) (h : WorkerBounds w) :
    WorkerBounds (w.sendJob job).1 := by
  unfold Worker.sendJob WorkerBounds
  obtain ⟨h1, h2⟩ := h
  split
  · dsimp only
    omega
  · dsimp only
    omega

theorem completeJob_bounds (w : Worker) (h : WorkerBounds w) (hpos : 0 < w.jobNum) :
    WorkerBounds w.completeJob := by
  unfold Worker.completeJob WorkerBounds
  obtain ⟨h1, h2⟩ := h
  dsimp only
  omega

theorem updateW_Inv (p : Pool) (hp : p.Inv) (ref : WorkerRef) (w : Worker)
    (hw : WorkerBounds w) : (p.updateW ref w).Inv := by
  cases ref with
  | eternal i =>
    refine ⟨hp.1, ?_⟩
    intro x hx
    simp only [Pool.updateW, Pool.allWorkers, Pool.tempList, List.mem_append] at hx
    rcases hx with hx | hx
    · rcases List.mem_or_eq_of_mem_set hx with hx | rfl
      · exact hp.2 x (List.mem_append.mpr (Or.inl hx))
      · exact hw
    · exact hp.2 x (List.mem_append.mpr (Or.inr hx))
  | temp i =>
    refine ⟨hp.1, ?_⟩
    intro x hx
    simp only [Pool.updateW, Pool.allWorkers, Pool.tempList, List.mem_append] at hx
    rcases hx with hx | hx
    · exact hp.2 x (List.mem_append.mpr (Or.inl hx))
    · rcases List.mem_or_eq_of_mem_set hx with hx | rfl
      · exact hp.2 x (List.mem_append.mpr (Or.inr hx))
      · exact hw

theorem doSend_Inv (p : Pool) (hp : p.Inv) (ref : WorkerRef) (job : TaskContext) :
    (doSend p ref job).1.Inv :=
  updateW_Inv p hp ref _ (sendJob_bounds _ job (lookup_bounds p hp ref))

theorem getWorkerFromTemp_fst (p : Pool) (i j : Nat) :
    (getWorkerFromTemp p i j).1 = p ∨
    (getWorkerFromTemp p i j).1 = { p with temporaryWorker := some [] } := by
  unfold getWorkerFromTemp
  split
  · exact Or.inr rfl
  · dsimp only
    repeat' split
    all_goals exact Or.inl rfl

theorem getWorkerFromTemp_Inv (p : Pool) (hp : p.Inv) (i j : Nat) :
    (getWorkerFromTemp p i j).1.Inv := by
  rcases getWorkerFromTemp_fst p i j with h | h
  · rw [h]
    exact hp
  · rw [h]
    refine ⟨hp.1, ?_⟩
    intro w hw
    apply hp.2
    simp only [Pool.allWorkers, Pool.tempList, List.mem_append, Option.getD_some] at hw ⊢
    rcases hw with hw | hw
    · exact Or.inl hw
    · simp at hw

theorem getWorkStepAux_Inv (f : Nat → Pool → Pool × Option WorkerRef)
    (hf : ∀ k q, q.Inv → (f k q).1.Inv) :
    ∀ (rem k : Nat) (p : Pool) (w : Option WorkerRef), p.Inv →
      (getWorkStepAux f k p w rem).2.1.Inv := by
  intro rem
  induction rem with
  | zero => intro k p w hp; exact hp
  | succ n ih =>
    intro k p w hp
    exact ih (k + 1) (f k p).1 (f k p).2 (hf k p hp)

theorem newTempWorker_Inv (p : Pool) (hp : p.Inv) (newId : Int) :
    (newTempWorker p newId).1.Inv := by
  refine ⟨hp.1, ?_⟩
  intro w hw
  simp only [newTempWorker, Pool.allWorkers, Pool.tempList, List.mem_append,
    Option.getD_some, List.mem_singleton] at hw
  rcases hw with hw | hw | rfl
  · exact hp.2 w (List.mem_append.mpr (Or.inl hw))
  · exact hp.2 w (List.mem_append.mpr (Or.inr hw))
  · exact ⟨le_refl 0, hp.1⟩

theorem ite_step_Inv (c : Bool) (s : Pool × Option WorkerRef)
    (f : Nat → Pool → Pool × Option WorkerRef)
    (hf : ∀ k q, q.Inv → (f k q).1.Inv) (hs : s.1.Inv) :
    (if c = true then getWorkStep 3 1 f s.1 else s).1.Inv := by
  split
  · exact getWorkStepAux_Inv f hf 3 0 s.1 none hs
  · exact hs

theorem doJobSelect_Inv (p : Pool) (hp : p.Inv) (pk : Nat → Nat × Nat) :
    (doJobSelect p pk).1.Inv := by
  unfold doJobSelect
  exact ite_step_Inv _ _ _ (fun k q hq => getWorkerFromTemp_Inv q hq _ _)
    (ite_step_Inv _ _ _ (fun k q hq => hq) hp)

theorem doAdmit_Inv (s : Pool × Option WorkerRef) (job : TaskContext) (newId : Int)
    (hs : s.1.Inv) : (doAdmit s job newId).1.Inv := by
  unfold doAdmit
  split
  · exact doSend_Inv _ (newTempWorker_Inv s.1 hs newId) _ job
  · split
    · exact doSend_Inv _ hs _ job
    · exact hs

theorem DoJob_Inv (p : Pool) (hp : p.Inv) (job : TaskContext) (pk : Nat → Nat × Nat)
    (newId : Int) : (DoJob p job pk newId).1.Inv := by
  unfold DoJob
  split
  · exact hp
  · exact doAdmit_Inv _ job newId (doJobSelect_Inv p hp pk)

theorem removeLoop_ok_subset (id : Int) (ws : List Worker) :
    ∀ (fuel : Nat) (l r : Int) (ws2 : List Worker),
      removeLoop id ws l r fuel = .ok ws2 → ∀ w ∈ ws2, w ∈ ws := by
  intro fuel
  induction fuel with
  | zero =>
    intro l r ws2 h
    unfold removeLoop at h
    split at h
    · cases h
    · cases h
      exact fun w hw => hw
  | succ n ih =>
    intro l r ws2 h
    unfold removeLoop at h
    split at h
    · dsimp only at h
      split at h
      · cases h
      · split at h
        · cases h
          intro w hw
          rcases List.mem_append.mp hw with hw | hw
          · exact List.mem_of_mem_take hw
          · exact List.mem_of_mem_drop hw
        · split at h
          · exact ih _ _ _ h
          · exact ih _ _ _ h
    · cases h
      exact fun w hw => hw

theorem removeFromParent_ok_fields (p : Pool) (id : Int) (p' : Pool)
    (h : removeFromParent p id = .ok p') :
    p'.eternalWorker = p.eternalWorker ∧ p'.conf = p.conf ∧
    p'.isClose = p.isClose ∧ ∀ w ∈ p'.tempList, w ∈ p.allWorkers := by
  unfold removeFromParent at h
  split at h
  · cases h
    exact ⟨rfl, rfl, rfl, fun w hw => List.mem_append.mpr (Or.inr hw)⟩
  · rename_i ws hws
    dsimp only at h
    split at h
    · cases h
      exact ⟨rfl, rfl, rfl, fun w hw => List.mem_append.mpr (Or.inr hw)⟩
    · by_cases h1 : ws.length = 1
      · rw [if_pos h1] at h
        by_cases hid : (ws.getD 0 default).ID ≠ id
        · rw [if_pos hid] at h
          cases h
          exact ⟨rfl, rfl, rfl, fun w hw => List.mem_append.mpr (Or.inr hw)⟩
        · rw [if_neg hid] at h
          split at h
          · rename_i ws2 hloop
            cases h
            refine ⟨rfl, rfl, rfl, ?_⟩
            intro w hw
            simp only [Pool.tempList, Option.getD_some] at hw
            have := removeLoop_ok_subset id [] _ _ _ _ hloop w hw
            simp at this
          · cases h
          · cases h
      · rw [if_neg h1] at h
        split at h
        · rename_i ws2 hloop
          cases h
          refine ⟨rfl, rfl, rfl, ?_⟩
          intro w hw
          simp only [Pool.tempList, Option.getD_some] at hw
          have hmem := removeLoop_ok_subset id ws _ _ _ _ hloop w hw
          apply List.mem_append.mpr
          right
          simp only [Pool.tempList, hws, Option.getD_some]
          exact hmem
        · cases h
        · cases h

theorem DoJob_closed_eq (p : Pool) (job : TaskContext) (pk : Nat → Nat × Nat)
    (newId : Int) (h : p.isClosed = true) : DoJob p job pk newId = (p, false) := by
  simp [DoJob, h]

theorem Close_of_closed (p : Pool) (h : p.isClosed = true) : Close p = p := by
  simp [Close, h]

theorem updateW_isClose (p : Pool) (ref : WorkerRef) (w : Worker) :
    (p.updateW ref w).isClose = p.isClose := by
  cases ref <;> rfl

theorem Step_preserves_closed (p q : Pool) (h : Step p q) (hcl : p.isClosed = true) :
    q.isClosed = true := by
  cases h with
  | doJob job pk newId =>
    rw [DoJob_closed_eq p job pk newId hcl]
    exact hcl
  | complete ref hpos =>
    simp only [Pool.isClosed, updateW_isClose] at hcl ⊢
    exact hcl
  | close =>
    rw [Close_of_closed p hcl]
    exact hcl
  | removeTemp id p' hrm =>
    obtain ⟨-, -, hic, -⟩ := removeFromParent_ok_fields p id q hrm
    simp only [Pool.isClosed, hic] at hcl ⊢
    exact hcl

theorem Step_preserves_Inv (p q : Pool) (hp : p.Inv) (h : Step p q) : q.Inv := by
  cases h with
  | doJob job pk newId => exact DoJob_Inv p hp job pk newId
  | complete ref hpos =>
    exact updateW_Inv p hp ref _ (completeJob_bounds _ (lookup_bounds p hp ref) hpos)
  | close =>
    unfold Close
    split
    · exact hp
    · refine ⟨hp.1, ?_⟩
      intro w hw
      apply hp.2
      simpa [Pool.allWorkers, Pool.tempList] using hw
  | removeTemp id p' hrm =>
    obtain ⟨he, hc, -, ht⟩ := removeFromParent_ok_fields p id q hrm
    refine ⟨by rw [hc]; exact hp.1, ?_⟩
    intro w hw
    rcases List.mem_append.mp hw with hw | hw
    · rw [he] at hw
      exact hp.2 w (List.mem_append.mpr (Or.inl hw))
    · exact hp.2 w (ht w hw)

/-- C6: Close is idempotent — on any pool whose isClose flag holds one of its
two reachable values, closing twice equals closing once, observable state
(isClose and cancellation) included — and closedness is monotonic: no
sequence of pool operations (DoJob, job completion, Close, temporary-worker
unregistration) ever makes a closed pool open again. -/
theorem Close_idempotent_monotonic :
    (∀ p : Pool, p.isClose = 1 ∨ p.isClose = 2 → Close (Close p) = Close p) ∧
    (∀ p q : Pool, Relation.ReflTransGen Step p q → p.isClosed = true →
      q.isClosed = true) := by
  constructor
  · intro p hp
    rcases hp with h | h
    · have hcl : p.isClosed = true := by simp [Pool.isClosed, h]
      rw [Close_of_closed p hcl, Close_of_closed p hcl]
    · have hcl : p.isClosed = false := by simp [Pool.isClosed, h]
      have h1 : Close p = { p with isClose := p.isClose - 1, cancelled := true } := by
        simp [Close, hcl]
      have h2 : (Close p).isClosed = true := by
        rw [h1]
        simp [Pool.isClosed, h]
      rw [Close_of_closed _ h2]
  · intro p q hr hcl
    induction hr with
    | refl => exact hcl
    | tail hab hbc ih => exact Step_preserves_closed _ _ hbc ih

/-- C6 witness: an open concrete pool, closed once, with the reflexive
reachability instance. -/
theorem Close_idempotent_monotonic_witness :
    Close (Close poolC2) = Close poolC2 ∧ (poolClosed.isClosed = true) :=
  ⟨Close_idempotent_monotonic.1 poolC2 (Or.inr rfl),
   Close_idempotent_monotonic.2 poolClosed poolClosed Relation.ReflTransGen.refl
     (by decide)⟩

/-- C8: from any freshly constructed pool (worker count at least 2 and
non-negative configured capacity), every pool reachable by DoJob calls, job
completions, Close and temporary-worker unregistration keeps every worker's
jobNum between 0 and its capacity; in particular no sequence of DoJob
admissions pushes any worker's jobNum above capacity. -/
theorem jobNum_within_capacity (conf : TaskConf) (p0 q : Pool)
    (h0 : NewPool conf = some p0) (hc : 0 ≤ conf.WorkerContent)
    (hr : Relation.ReflTransGen Step p0 q) :
    ∀ w ∈ q.allWorkers, 0 ≤ w.jobNum ∧ w.jobNum ≤ w.capacity := by
  have hInv0 : p0.Inv := by
    unfold NewPool at h0
    split at h0
    · cases h0
    · cases h0
      refine ⟨hc, ?_⟩
      intro w hw
      simp only [Pool.allWorkers, Pool.tempList, startPool, startPoolWorkers,
        List.mem_append, List.nil_append, List.mem_map, List.mem_range,
        Option.getD_none] at hw
      rcases hw with ⟨i, hi, rfl⟩ | hw
      · exact ⟨le_refl 0, hc⟩
      · simp at hw
  have hq : q.Inv := by
    induction hr with
    | refl => exact hInv0
    | tail hab hbc ih => exact Step_preserves_Inv _ _ ih hbc
  exact fun w hw => hq.2 w hw

/-- C8 witness: the invariant instantiated at the freshly built two-worker
pool and its first eternal worker. -/
theorem jobNum_within_capacity_witness :
    0 ≤ (newWorker 1 1 ETERNAL).jobNum ∧
    (newWorker 1 1 ETERNAL).jobNum ≤ (newWorker 1 1 ETERNAL).capacity :=
  jobNum_within_capacity confW (startPool poolInit) (startPool poolInit)
    rfl (by decide) Relation.ReflTransGen.refl (newWorker 1 1 ETERNAL) (by decide)
